import Mathlib

/-!
Verification of the `gohelpers` repository.

The repository provides two helper libraries:

* a reflection-driven configuration binder (`config` package): a struct
  annotated with tags is turned into a set of command-line flags, and a
  YAML configuration file is merged with explicitly-set command-line
  overrides (`New`, `genFlagSet`, `processStruct`, `ParseConfiguration`);
* a thin logger façade (`logger` package, plus a near-duplicate unnamed
  variant of the same package): level filtering, key/value tags with
  copy-on-write derivation (`New`, `WithTag`, `WithTags`, `Info`, `Debug`,
  `Warn`, `Error`, `Fatal`).

This file gives a shallow embedding of those functions and proves the
specified properties about them.  Go slices are modelled by a heap of
backing arrays plus (array id, length) descriptors, so that slice
aliasing and `append`'s reallocate-or-write-in-place behaviour are
faithfully represented; this is needed because the two `WithTag`
implementations differ exactly in whether they alias the parent's
backing array.
-/

namespace Gohelpers

/-! ### Go slices: heap of backing arrays

A backing array is a `List α` stored in a heap; a slice holds the id of
its backing array and its length (all slices in this code have offset 0,
so offsets are not modelled).  The capacity of a slice is the length of
its backing array.  `goAppend` models Go's `append`: write in place when
there is spare capacity, otherwise allocate a grown array (for the small
slices that occur here the Go runtime doubles the capacity, or moves
from 0 to 1).  `goCopy` models Go's `copy` builtin.
-/

structure Slice where
  arr : Nat
  len : Nat
deriving DecidableEq, Repr, Inhabited

structure Heap (α : Type) where
  arrays : List (List α)
deriving DecidableEq, Repr

def Heap.size {α : Type} (h : Heap α) : Nat := h.arrays.length

def Heap.read {α : Type} (h : Heap α) (i : Nat) : List α := h.arrays.getD i []

def Heap.write {α : Type} (h : Heap α) (i : Nat) (xs : List α) : Heap α := ⟨h.arrays.set i xs⟩

def Heap.alloc {α : Type} (h : Heap α) (xs : List α) : Heap α × Nat :=
  (⟨h.arrays ++ [xs]⟩, h.arrays.length)

def Slice.cap {α : Type} (s : Slice) (h : Heap α) : Nat := (h.read s.arr).length

def Slice.view {α : Type} (s : Slice) (h : Heap α) : List α := (h.read s.arr).take s.len

/-- Capacity growth used by the Go runtime when `append` must reallocate
a small slice: capacity 0 grows to 1, otherwise the capacity doubles. -/
def growCap (c : Nat) : Nat := if c = 0 then 1 else 2 * c

/-- Go's `append(s, v)` on a slice `s` whose backing array lives in `h`:
if there is spare capacity the element is written in place into the
(possibly shared) backing array; otherwise a fresh, larger array is
allocated and the contents are copied.  `d` is the zero value of the
element type (used to pad the spare capacity of a fresh array). -/
def goAppend {α : Type} (d : α) (h : Heap α) (s : Slice) (v : α) : Heap α × Slice :=
  if s.len < s.cap h then
    (h.write s.arr ((h.read s.arr).set s.len v), ⟨s.arr, s.len + 1⟩)
  else
    let c := growCap (s.cap h)
    let data := s.view h ++ [v] ++ List.replicate (c - (s.len + 1)) d
    let p := h.alloc data
    (p.1, ⟨p.2, s.len + 1⟩)

/-- Go's `copy(dst, src)`: copies `min dst.len src.len` elements into the
front of `dst`'s backing array. -/
def goCopy {α : Type} (h : Heap α) (dst src : Slice) : Heap α :=
  let n := min dst.len src.len
  h.write dst.arr (((h.read src.arr).take n) ++ ((h.read dst.arr).drop n))

/-- A sequence of `append`s to a slice (used to state that later appends
to a derived logger's tag slice never disturb the parent). -/
def appendAll {α : Type} (d : α) (h : Heap α) (s : Slice) (vs : List α) : Heap α × Slice :=
  vs.foldl (fun p v => goAppend d p.1 p.2 v) (h, s)

/-! ### Elementary list lemmas used by the heap model -/

theorem listGetD_append {α : Type} (l₁ l₂ : List α) (d : α) (i : Nat) (h : i < l₁.length) :
    (l₁ ++ l₂).getD i d = l₁.getD i d := by
  induction l₁ generalizing i with
  | nil => simp at h
  | cons a t ih =>
    cases i with
    | zero => rfl
    | succ j => simpa using ih j (by simpa using h)

theorem listGetD_append_self {α : Type} (l₁ l₂ : List α) (d : α) :
    (l₁ ++ l₂).getD l₁.length d = l₂.getD 0 d := by
  induction l₁ with
  | nil => rfl
  | cons a t ih => simpa using ih

theorem listGetD_set_ne {α : Type} (l : List α) (d v : α) (i j : Nat) (h : i ≠ j) :
    (l.set j v).getD i d = l.getD i d := by
  induction l generalizing i j with
  | nil => rfl
  | cons a t ih =>
    cases j with
    | zero =>
      cases i with
      | zero => exact absurd rfl h
      | succ k => rfl
    | succ m =>
      cases i with
      | zero => rfl
      | succ k => simpa using ih k m (by omega)

theorem listTake_set_of_le {α : Type} (l : List α) (v : α) (n i : Nat) (h : n ≤ i) :
    (l.set i v).take n = l.take n := by
  induction l generalizing n i with
  | nil => rfl
  | cons a t ih =>
    cases i with
    | zero =>
      have hn : n = 0 := Nat.le_zero.mp h
      simp [hn]
    | succ m =>
      cases n with
      | zero => rfl
      | succ k => simpa using ih k m (by omega)

theorem listTake_succ_set {α : Type} (l : List α) (v : α) (n : Nat) (h : n < l.length) :
    (l.set n v).take (n + 1) = l.take n ++ [v] := by
  induction l generalizing n with
  | nil => simp at h
  | cons a t ih =>
    cases n with
    | zero => rfl
    | succ m => simpa using ih m (by simpa using h)

/-! ### Heap access lemmas -/

theorem Heap.size_write {α : Type} (h : Heap α) (i : Nat) (xs : List α) :
    (h.write i xs).size = h.size := by
  simp [Heap.size, Heap.write]

theorem Heap.size_alloc {α : Type} (h : Heap α) (xs : List α) :
    (h.alloc xs).1.size = h.size + 1 := by
  simp [Heap.size, Heap.alloc]

theorem Heap.read_alloc_of_lt {α : Type} (h : Heap α) (xs : List α) (i : Nat)
    (hi : i < h.size) : (h.alloc xs).1.read i = h.read i := by
  simp only [Heap.read, Heap.alloc]
  exact listGetD_append h.arrays [xs] [] i hi

theorem Heap.read_alloc_self {α : Type} (h : Heap α) (xs : List α) :
    (h.alloc xs).1.read (h.alloc xs).2 = xs := by
  simp only [Heap.read, Heap.alloc]
  simp [listGetD_append_self h.arrays [xs] []]

theorem Heap.read_write_of_ne {α : Type} (h : Heap α) (i j : Nat) (xs : List α)
    (hij : i ≠ j) : (h.write j xs).read i = h.read i := by
  simp only [Heap.read, Heap.write]
  exact listGetD_set_ne h.arrays [] xs i j hij

theorem Heap.read_write_self {α : Type} (h : Heap α) (i : Nat) (xs : List α)
    (hi : i < h.size) : (h.write i xs).read i = xs := by
  simp only [Heap.read, Heap.write]
  rw [List.getD_eq_getElem?_getD]
  rw [List.getElem?_set_self (by simpa [Heap.size] using hi)]
  rfl

/-! ### Preservation of an observer slice under appends

`Protects h p s` says: `p`'s backing array exists in `h`, and if `s`
shares `p`'s backing array then `s` extends at least to `p`'s length, so
in-place writes performed by appending to `s` land beyond the elements
`p` can observe.  This invariant is preserved by `goAppend` and implies
that `p.view` never changes while appending through `s`. -/

def Protects {α : Type} (h : Heap α) (p s : Slice) : Prop :=
  p.arr < h.size ∧ (s.arr = p.arr → p.len ≤ s.len)

theorem goAppend_protects {α : Type} (d v : α) (h : Heap α) (p s : Slice)
    (hp : Protects h p s) :
    p.view (goAppend d h s v).1 = p.view h ∧
    Protects (goAppend d h s v).1 p (goAppend d h s v).2 := by
  obtain ⟨hlt, hsh⟩ := hp
  unfold goAppend
  by_cases hc : s.len < s.cap h
  · simp only [hc, if_pos]
    refine ⟨?_, ⟨by simpa [Heap.size_write] using hlt, fun he => Nat.le_succ_of_le (hsh he)⟩⟩
    by_cases he : s.arr = p.arr
    · have hsz : s.arr < h.size := by rw [he]; exact hlt
      have hw := Heap.read_write_self h s.arr ((h.read s.arr).set s.len v) hsz
      simp only [Slice.view, ← he, hw]
      exact listTake_set_of_le (h.read s.arr) v p.len s.len (hsh he)
    · simp only [Slice.view, Heap.read_write_of_ne h p.arr s.arr _ (fun hh => he hh.symm)]
  · simp only [hc, if_neg, not_false_iff]
    refine ⟨?_, ⟨by simpa [Heap.size_alloc] using Nat.lt_succ_of_lt hlt, fun he => ?_⟩⟩
    · simp only [Slice.view, Heap.read_alloc_of_lt h _ p.arr hlt]
    · exfalso
      simp only [Heap.alloc] at he
      simp only [Heap.size] at hlt
      omega

theorem appendAll_protects {α : Type} (d : α) (vs : List α) (h : Heap α) (p s : Slice)
    (hp : Protects h p s) :
    p.view (appendAll d h s vs).1 = p.view h ∧
    Protects (appendAll d h s vs).1 p (appendAll d h s vs).2 := by
  induction vs generalizing h s with
  | nil => exact ⟨rfl, hp⟩
  | cons v rest ih =>
    have step := goAppend_protects d v h p s hp
    have tail := ih (goAppend d h s v).1 (goAppend d h s v).2 step.2
    have heq : appendAll d h s (v :: rest) = appendAll d (goAppend d h s v).1 (goAppend d h s v).2 rest := rfl
    rw [heq]
    exact ⟨tail.1.trans step.1, tail.2⟩

/-! ### Logger façade

The repository contains two near-duplicate `package logger` files.  The
named one (`logger/logger.go`, embedded below as namespace `LoggerM`)
has level options `WithError`/`WithWarn`/`WithDebug` and a `WithTag`
that copies the parent's tag slice before appending.  The unnamed
duplicate (embedded as namespace `LoggerAlt`) has `WithLogLevel` and a
`WithTag` that aliases the parent's tag slice (`tags: l.tags` followed
by `append`).  Tag values are Go `any`; only the string test performed
by `WithTags` is observable, so values are modelled by a small sum. -/

inductive TagVal where
  | str (s : String)
  | int (n : Int)
  | vnil
deriving DecidableEq, Repr, Inhabited

structure Tag where
  key : String
  value : TagVal
deriving DecidableEq, Repr

/-- The zero value of the Go `Tag` struct. -/
def tagZero : Tag := ⟨"", TagVal.vnil⟩

instance : Inhabited Tag := ⟨tagZero⟩

/-- The type-assertion `args[i].(string)` performed on each key position. -/
def isStringArg : TagVal → Bool
  | TagVal.str _ => true
  | _ => false

/-- Log levels, `type Level uint`: Error 0, Warn 1, Info 2, Debug 3. -/
def LevelError : Nat := 0

def LevelWarn : Nat := 1

def LevelInfo : Nat := 2

def LevelDebug : Nat := 3

def defaultLevel : Nat := LevelInfo

def defaultType : Nat := 0

/-- A call forwarded to the back-end (`wrappers.Log` methods). -/
inductive LogCall where
  | info (msg : String)
  | debug (msg : String)
  | warn (msg : String)
  | error (msg : String)
  | fatal (msg : String)
deriving DecidableEq, Repr

/-- The pair-reading loop shared verbatim by both `WithTags`
implementations: `for i := 0; i < len(args)-1; i = i + 2 { ... }`,
appending a `Tag` per pair, returning an error naming the index of the
first non-string key. -/
def withTagsPairs (h : Heap Tag) (s : Slice) (i : Nat) :
    List TagVal → Heap Tag × Except String Slice
  | [] => (h, Except.ok s)
  | [_] => (h, Except.ok s)
  | a :: b :: rest =>
    match a with
    | TagVal.str k =>
      let p := goAppend tagZero h s ⟨k, b⟩
      withTagsPairs p.1 p.2 (i + 2) rest
    | _ => (h, Except.error ("argument " ++ toString i ++ " is not a string"))

namespace LoggerM

/-- `logger.Logger` of `logger/logger.go`: level, back-end type selector,
back-end reference (modelled by an id; `0` is the nil interface), and
the tag slice. -/
structure Logger where
  level : Nat
  typ : Nat
  implId : Nat
  tags : Slice
deriving DecidableEq, Repr, Inhabited

/-- `WithError` — as written in the source it sets `LevelDebug`. -/
def WithError : Logger → Logger := fun l => { l with level := LevelDebug }

/-- `WithWarn` — as written in the source it sets `LevelDebug`, although
its doc comment promises warnings only. -/
def WithWarn : Logger → Logger := fun l => { l with level := LevelDebug }

/-- `WithDebug`. -/
def WithDebug : Logger → Logger := fun l => { l with level := LevelDebug }

/-- `WithCustomLogger` sets the back-end reference. -/
def WithCustomLogger (impl : Nat) : Logger → Logger := fun l => { l with implId := impl }

/-- `WithType`: undefined selectors (`> TypeZap = 1`) are ignored. -/
def WithType (t : Nat) : Logger → Logger := fun l => if t ≤ 1 then { l with typ := t } else l

/-- `New`: builds the default logger (level Info, type slog, fresh empty
tag slice), applies the options in order, then validates the type
selector; an out-of-range selector panics (modelled as `none`). -/
def New (h : Heap Tag) (opts : List (Logger → Logger)) : Heap Tag × Option Logger :=
  let p := h.alloc []
  let l0 : Logger := { level := defaultLevel, typ := defaultType, implId := 0, tags := ⟨p.2, 0⟩ }
  let l := opts.foldl (fun acc o => o acc) l0
  match l.typ with
  | 0 => (p.1, some l)
  | 1 => (p.1, some l)
  | _ => (p.1, none)

/-- `Info`: forwarded when `l.level >= LevelInfo`. -/
def Info (l : Logger) (msg : String) : Option LogCall :=
  if LevelInfo ≤ l.level then some (LogCall.info msg) else none

/-- `Debug`: forwarded when `l.level >= LevelDebug`. -/
def Debug (l : Logger) (msg : String) : Option LogCall :=
  if LevelDebug ≤ l.level then some (LogCall.debug msg) else none

/-- `Warn`: forwarded when `l.level >= LevelWarn`. -/
def Warn (l : Logger) (msg : String) : Option LogCall :=
  if LevelWarn ≤ l.level then some (LogCall.warn msg) else none

/-- `Error`: forwarded when `l.level >= LevelError` (always true). -/
def Error (l : Logger) (msg : String) : Option LogCall :=
  if LevelError ≤ l.level then some (LogCall.error msg) else none

/-- `Fatal`: always forwarded, ungated. -/
def Fatal (l : Logger) (msg : String) : Option LogCall :=
  some (LogCall.fatal msg)

/-- `WithTag` of `logger/logger.go`: `make([]Tag, len(l.tags))`, `copy`,
then `append` — the child's storage is freshly allocated.  The struct
literal omits `typ`, so the child's selector is the zero value. -/
def WithTag (h : Heap Tag) (l : Logger) (key : String) (val : TagVal) : Heap Tag × Logger :=
  let a := h.alloc (List.replicate l.tags.len tagZero)
  let s0 : Slice := ⟨a.2, l.tags.len⟩
  let h2 := goCopy a.1 s0 l.tags
  let p := goAppend tagZero h2 s0 ⟨key, val⟩
  (p.1, { level := l.level, typ := 0, implId := l.implId, tags := p.2 })

/-- `WithTags` of `logger/logger.go`: rejects an odd argument count
before doing anything, otherwise copies the parent's tags into a fresh
array and runs the pair loop; a non-string key aborts with an error and
no logger. -/
def WithTags (h : Heap Tag) (l : Logger) (args : List TagVal) :
    Heap Tag × Except String Logger :=
  if args.length % 2 ≠ 0 then (h, Except.error "odd number of arguments")
  else
    let a := h.alloc (List.replicate l.tags.len tagZero)
    let s0 : Slice := ⟨a.2, l.tags.len⟩
    let h2 := goCopy a.1 s0 l.tags
    match withTagsPairs h2 s0 0 args with
    | (h3, Except.ok s) =>
      (h3, Except.ok { level := l.level, typ := 0, implId := l.implId, tags := s })
    | (h3, Except.error e) => (h3, Except.error e)

end LoggerM

namespace LoggerAlt

/-- `logger.Logger` of the unnamed duplicate variant. -/
structure Logger where
  level : Nat
  typ : Nat
  implId : Nat
  tags : Slice
deriving DecidableEq, Repr, Inhabited

/-- `WithLogLevel`: undefined levels (`> LevelDebug`) are ignored. -/
def WithLogLevel (lvl : Nat) : Logger → Logger :=
  fun l => if lvl ≤ LevelDebug then { l with level := lvl } else l

/-- `WithType`: undefined selectors are ignored. -/
def WithType (t : Nat) : Logger → Logger := fun l => if t ≤ 1 then { l with typ := t } else l

/-- `New` of the duplicate variant (same code as `LoggerM.New`). -/
def New (h : Heap Tag) (opts : List (Logger → Logger)) : Heap Tag × Option Logger :=
  let p := h.alloc []
  let l0 : Logger := { level := defaultLevel, typ := defaultType, implId := 0, tags := ⟨p.2, 0⟩ }
  let l := opts.foldl (fun acc o => o acc) l0
  match l.typ with
  | 0 => (p.1, some l)
  | 1 => (p.1, some l)
  | _ => (p.1, none)

/-- `WithTag` of the duplicate variant: `logger.tags = l.tags` followed
by `append` — no copy, so the child may share (and write into) the
parent's backing array when spare capacity exists. -/
def WithTag (h : Heap Tag) (l : Logger) (key : String) (val : TagVal) : Heap Tag × Logger :=
  let p := goAppend tagZero h l.tags ⟨key, val⟩
  (p.1, { level := l.level, typ := 0, implId := l.implId, tags := p.2 })

/-- `WithTags` of the duplicate variant: odd counts rejected, then the
pair loop appends starting from the parent's slice itself (no copy). -/
def WithTags (h : Heap Tag) (l : Logger) (args : List TagVal) :
    Heap Tag × Except String Logger :=
  if args.length % 2 ≠ 0 then (h, Except.error "odd number of arguments")
  else
    match withTagsPairs h l.tags 0 args with
    | (h3, Except.ok s) =>
      (h3, Except.ok { level := l.level, typ := 0, implId := l.implId, tags := s })
    | (h3, Except.error e) => (h3, Except.error e)

end LoggerAlt

/-! ### Lemmas about the shared `WithTags` pair loop -/

/-- Induction principle following the two-at-a-time recursion pattern of
the `WithTags` loop. -/
def pairRec {P : List TagVal → Prop} (h0 : P []) (h1 : ∀ a, P [a])
    (h2 : ∀ a b rest, P rest → P (a :: b :: rest)) : ∀ l, P l
  | [] => h0
  | [a] => h1 a
  | a :: b :: rest => h2 a b rest (pairRec h0 h1 h2 rest)

theorem withTagsPairs_protects (p : Slice) :
    ∀ (args : List TagVal) (h : Heap Tag) (s : Slice) (i : Nat), Protects h p s →
      p.view (withTagsPairs h s i args).1 = p.view h ∧
      (∀ s2, (withTagsPairs h s i args).2 = Except.ok s2 →
        Protects (withTagsPairs h s i args).1 p s2) := by
  refine pairRec ?_ ?_ ?_
  · intro h s i hp
    exact ⟨rfl, fun s2 hs2 => by cases hs2; exact hp⟩
  · intro a h s i hp
    exact ⟨rfl, fun s2 hs2 => by cases hs2; exact hp⟩
  · intro a b rest ih h s i hp
    cases a with
    | str k =>
      have step := goAppend_protects tagZero ⟨k, b⟩ h p s hp
      have tail := ih (goAppend tagZero h s ⟨k, b⟩).1 (goAppend tagZero h s ⟨k, b⟩).2 (i + 2) step.2
      have heq : withTagsPairs h s i (TagVal.str k :: b :: rest)
          = withTagsPairs (goAppend tagZero h s ⟨k, b⟩).1 (goAppend tagZero h s ⟨k, b⟩).2 (i + 2) rest := rfl
      rw [heq]
      exact ⟨tail.1.trans step.1, tail.2⟩
    | int n =>
      exact ⟨rfl, fun s2 hs2 => by cases hs2⟩
    | vnil =>
      exact ⟨rfl, fun s2 hs2 => by cases hs2⟩

theorem withTagsPairs_err_of_badkey :
    ∀ (args : List TagVal) (h : Heap Tag) (s : Slice) (i j : Nat),
      args.length % 2 = 0 → j < args.length → j % 2 = 0 →
      isStringArg (args.getD j TagVal.vnil) = false →
      ∃ h2 e, withTagsPairs h s i args = (h2, Except.error e) := by
  refine pairRec ?_ ?_ ?_
  · intro h s i j _ hj _ _
    simp at hj
  · intro a h s i j hlen _ _ _
    simp at hlen
  · intro a b rest ih h s i j hlen hj hje hbad
    cases a with
    | str k =>
      have hj2 : 2 ≤ j := by
        rcases Nat.lt_or_ge j 2 with hlt | hge
        · interval_cases j
          · simp [isStringArg] at hbad
          · simp at hje
        · exact hge
      have hrest : rest.length % 2 = 0 := by
        have : (TagVal.str k :: b :: rest).length = rest.length + 2 := by simp
        omega
      have hgd : (TagVal.str k :: b :: rest).getD j TagVal.vnil = rest.getD (j - 2) TagVal.vnil := by
        obtain ⟨j2, rfl⟩ : ∃ j2, j = j2 + 2 := ⟨j - 2, by omega⟩
        simp [List.getD]
      have hjlt : j - 2 < rest.length := by
        have : (TagVal.str k :: b :: rest).length = rest.length + 2 := by simp
        omega
      have hje2 : (j - 2) % 2 = 0 := by omega
      have tail := ih (goAppend tagZero h s ⟨k, b⟩).1 (goAppend tagZero h s ⟨k, b⟩).2 (i + 2)
        (j - 2) hrest hjlt hje2 (by rw [← hgd]; exact hbad)
      have heq : withTagsPairs h s i (TagVal.str k :: b :: rest)
          = withTagsPairs (goAppend tagZero h s ⟨k, b⟩).1 (goAppend tagZero h s ⟨k, b⟩).2 (i + 2) rest := rfl
      rw [heq]
      exact tail
    | int n =>
      exact ⟨h, "argument " ++ toString i ++ " is not a string", rfl⟩
    | vnil =>
      exact ⟨h, "argument " ++ toString i ++ " is not a string", rfl⟩

/-! ### Helper lemmas: fresh-copy prelude and the view of an appended slice -/

theorem listTake_len_succ_append {α : Type} (xs ys : List α) (v : α) :
    (xs ++ [v] ++ ys).take (xs.length + 1) = xs ++ [v] := by
  induction xs with
  | nil => simp
  | cons a t ih => simpa using ih

theorem length_view_of_le {α : Type} (h : Heap α) (s : Slice) (hl : s.len ≤ s.cap h) :
    (s.view h).length = s.len := by
  simp only [Slice.view, List.length_take]
  exact Nat.min_eq_left (by simpa [Slice.cap] using hl)

/-- After `append` the new slice reads back as the old contents plus the
new element (whether it reallocated or wrote in place). -/
theorem goAppend_view {α : Type} (d v : α) (h : Heap α) (s : Slice)
    (hs : s.arr < h.size) (hl : s.len ≤ s.cap h) :
    (goAppend d h s v).2.view (goAppend d h s v).1 = s.view h ++ [v] := by
  unfold goAppend
  by_cases hc : s.len < s.cap h
  · simp only [hc, if_pos]
    have hw := Heap.read_write_self h s.arr ((h.read s.arr).set s.len v) hs
    simp only [Slice.view, hw]
    exact listTake_succ_set (h.read s.arr) v s.len (by simpa [Slice.cap] using hc)
  · simp only [hc, if_neg, not_false_iff]
    have hr := Heap.read_alloc_self h
      (s.view h ++ [v] ++ List.replicate (growCap (s.cap h) - (s.len + 1)) d)
    simp only [Slice.view] at hr ⊢
    rw [hr]
    have hlen : ((h.read s.arr).take s.len).length = s.len := by
      simpa [Slice.view] using length_view_of_le h s hl
    calc ((h.read s.arr).take s.len ++ [v] ++ List.replicate (growCap (s.cap h) - (s.len + 1)) d).take (s.len + 1)
        = ((h.read s.arr).take s.len ++ [v] ++ List.replicate (growCap (s.cap h) - (s.len + 1)) d).take (((h.read s.arr).take s.len).length + 1) := by rw [hlen]
      _ = (h.read s.arr).take s.len ++ [v] := listTake_len_succ_append _ _ v

theorem freshCopy_read_self {α : Type} (h : Heap α) (d : α) (src : Slice)
    (hs : src.arr < h.size) :
    (goCopy (h.alloc (List.replicate src.len d)).1
        ⟨(h.alloc (List.replicate src.len d)).2, src.len⟩ src).read
      (h.alloc (List.replicate src.len d)).2 = src.view h := by
  unfold goCopy
  have hid : (h.alloc (List.replicate src.len d)).2 = h.size := rfl
  have hsz : (h.alloc (List.replicate src.len d)).1.size = h.size + 1 := Heap.size_alloc h _
  have hrs : (h.alloc (List.replicate src.len d)).1.read src.arr = h.read src.arr :=
    Heap.read_alloc_of_lt h _ src.arr hs
  have hrd : (h.alloc (List.replicate src.len d)).1.read (h.alloc (List.replicate src.len d)).2
      = List.replicate src.len d := Heap.read_alloc_self h _
  simp only [Nat.min_self]
  rw [Heap.read_write_self _ _ _ (by rw [hid, hsz]; omega)]
  rw [hrs, hrd]
  simp [Slice.view]

theorem freshCopy_read_other {α : Type} (h : Heap α) (d : α) (src : Slice) (x : Nat)
    (hx : x < h.size) :
    (goCopy (h.alloc (List.replicate src.len d)).1
        ⟨(h.alloc (List.replicate src.len d)).2, src.len⟩ src).read x = h.read x := by
  unfold goCopy
  have hid : (h.alloc (List.replicate src.len d)).2 = h.size := rfl
  have hne : x ≠ (⟨(h.alloc (List.replicate src.len d)).2, src.len⟩ : Slice).arr := by
    show x ≠ (h.alloc (List.replicate src.len d)).2
    rw [hid]
    omega
  rw [Heap.read_write_of_ne _ _ _ _ hne]
  exact Heap.read_alloc_of_lt h _ x hx

theorem freshCopy_size {α : Type} (h : Heap α) (d : α) (src : Slice) :
    (goCopy (h.alloc (List.replicate src.len d)).1
        ⟨(h.alloc (List.replicate src.len d)).2, src.len⟩ src).size = h.size + 1 := by
  unfold goCopy
  rw [Heap.size_write, Heap.size_alloc]

/-! ### Claim theorems: logger level gating -/

/-- C6: for every configured minimum level and every message, an
`Info`/`Debug`/`Warn`/`Error` call is forwarded to the back-end if and
only if the configured level is at least the call's own level under the
ordering Error(0) < Warn(1) < Info(2) < Debug(3); `Fatal` is forwarded
unconditionally. -/
theorem logger_level_gating (l : LoggerM.Logger) (msg : String) :
    ((LoggerM.Info l msg).isSome = decide (LevelInfo ≤ l.level)) ∧
    ((LoggerM.Debug l msg).isSome = decide (LevelDebug ≤ l.level)) ∧
    ((LoggerM.Warn l msg).isSome = decide (LevelWarn ≤ l.level)) ∧
    ((LoggerM.Error l msg).isSome = decide (LevelError ≤ l.level)) ∧
    LoggerM.Fatal l msg = some (LogCall.fatal msg) := by
  refine ⟨?_, ?_, ?_, ?_, rfl⟩ <;>
    simp only [LoggerM.Info, LoggerM.Debug, LoggerM.Warn, LoggerM.Error] <;>
    split <;> simp_all

/-- C7: the source of `WithWarn` contradicts both its own doc comment
("configures the logger to only print warning messages") and the spec:
it sets the level to `LevelDebug`, so a logger built with `WithWarn`
*does* forward an `Info` call to the back-end.  This theorem evaluates
the code at the failing input: `New(ctx, WithWarn())` produces a logger
at level `LevelDebug` (3), and its `Info` call is forwarded. -/
theorem withWarn_forwards_info :
    LoggerM.New ⟨[]⟩ [LoggerM.WithWarn]
      = (⟨[[]]⟩, some ⟨LevelDebug, 0, 0, ⟨0, 0⟩⟩) ∧
    LoggerM.Info ⟨LevelDebug, 0, 0, ⟨0, 0⟩⟩ "request served" = some (LogCall.info "request served") := by
  constructor <;> rfl

/-! ### Claim C8: tag derivation and (non-)aliasing -/

/-- Heap and root logger produced by `New` of the duplicate variant. -/
def altH1 : Heap Tag := ⟨[[]]⟩

def altRoot : LoggerAlt.Logger := ⟨2, 0, 0, ⟨0, 0⟩⟩

def altStepA : Heap Tag × LoggerAlt.Logger :=
  LoggerAlt.WithTag altH1 altRoot "k1" (TagVal.str "v1")

def altStepB : Heap Tag × LoggerAlt.Logger :=
  LoggerAlt.WithTag altStepA.1 altStepA.2 "k2" (TagVal.str "v2")

def altStepC : Heap Tag × LoggerAlt.Logger :=
  LoggerAlt.WithTag altStepB.1 altStepB.2 "k3" (TagVal.str "v3")

def altStepD : Heap Tag × LoggerAlt.Logger :=
  LoggerAlt.WithTag altStepC.1 altStepC.2 "k4" (TagVal.str "v4")

/-- A second derivation from the same parent (`altStepC.2`), performed
after `altStepD`, in the heap state `altStepD` left behind. -/
def altStepE : Heap Tag × LoggerAlt.Logger :=
  LoggerAlt.WithTag altStepD.1 altStepC.2 "k5" (TagVal.str "v5")

/-- C8 counterexample: in the unnamed duplicate logger variant,
`WithTag` does **not** give the child an independently-owned tag
sequence.  Starting from `New` and deriving four times, the fourth
child (`altStepD.2`) shares its backing array with its parent
(`altStepC.2`) — `append` found spare capacity and wrote in place — and
a subsequent sibling derivation from the same parent rewrites the
fourth child's last tag through the shared array. -/
theorem withTag_aliasing_counterexample :
    LoggerAlt.New ⟨[]⟩ [] = (altH1, some altRoot) ∧
    altStepD.2.tags.arr = altStepC.2.tags.arr ∧
    altStepD.2.tags.view altStepD.1 =
      [⟨"k1", TagVal.str "v1"⟩, ⟨"k2", TagVal.str "v2"⟩, ⟨"k3", TagVal.str "v3"⟩, ⟨"k4", TagVal.str "v4"⟩] ∧
    altStepD.2.tags.view altStepE.1 =
      [⟨"k1", TagVal.str "v1"⟩, ⟨"k2", TagVal.str "v2"⟩, ⟨"k3", TagVal.str "v3"⟩, ⟨"k5", TagVal.str "v5"⟩] := by
  refine ⟨rfl, rfl, ?_, ?_⟩ <;> rfl

/-- When a slice is at capacity, `append` reallocates: the resulting
slice points at the freshly allocated array (id = old heap size). -/
theorem goAppend_arr_of_full {α : Type} (d v : α) (h : Heap α) (s : Slice)
    (hfull : ¬ s.len < s.cap h) :
    (goAppend d h s v).2.arr = h.size ∧ (goAppend d h s v).1.size = h.size + 1 := by
  unfold goAppend
  simp only [hfull, if_neg, not_false_iff]
  exact ⟨rfl, Heap.size_alloc h _⟩

/-- Core facts about the copying `WithTag` of `logger/logger.go`: the
child's backing array is fresh (distinct from the parent's), the parent
reads back unchanged, the child reads back as parent-plus-new-tag, and
the parent stays protected from any further appends through the child. -/
theorem withTagM_spec (h : Heap Tag) (l : LoggerM.Logger) (k : String) (v : TagVal)
    (ha : l.tags.arr < h.size) (hb : l.tags.len ≤ l.tags.cap h) :
    (LoggerM.WithTag h l k v).2.tags.arr ≠ l.tags.arr ∧
    l.tags.view (LoggerM.WithTag h l k v).1 = l.tags.view h ∧
    (LoggerM.WithTag h l k v).2.tags.view (LoggerM.WithTag h l k v).1 = l.tags.view h ++ [⟨k, v⟩] ∧
    Protects (LoggerM.WithTag h l k v).1 l.tags (LoggerM.WithTag h l k v).2.tags := by
  have F1 := freshCopy_read_self h tagZero l.tags ha
  have F3 := freshCopy_size h tagZero l.tags
  simp only [LoggerM.WithTag]
  set H2 := goCopy (h.alloc (List.replicate l.tags.len tagZero)).1
    ⟨(h.alloc (List.replicate l.tags.len tagZero)).2, l.tags.len⟩ l.tags with hH2
  set S0 : Slice := ⟨(h.alloc (List.replicate l.tags.len tagZero)).2, l.tags.len⟩ with hS0
  have hid : S0.arr = h.size := rfl
  have hlenview : (l.tags.view h).length = l.tags.len := length_view_of_le h l.tags hb
  have hreadS0 : H2.read S0.arr = l.tags.view h := F1
  have hcap : S0.cap H2 = l.tags.len := by
    simp only [Slice.cap, hreadS0, hlenview]
  have hS0arr : S0.arr < H2.size := by
    rw [hid, F3]
    omega
  have hS0len : S0.len ≤ S0.cap H2 := by
    rw [hcap]
  have hviewS0 : S0.view H2 = l.tags.view h := by
    have hstep : S0.view H2 = (l.tags.view h).take l.tags.len := by
      show (H2.read S0.arr).take S0.len = (l.tags.view h).take l.tags.len
      rw [hreadS0]
    rw [hstep]
    exact List.take_of_length_le (le_of_eq hlenview)
  have hviewH2 : l.tags.view H2 = l.tags.view h := by
    simp only [Slice.view, freshCopy_read_other h tagZero l.tags l.tags.arr ha]
  have hprot : Protects H2 l.tags S0 := by
    refine ⟨by rw [F3]; omega, fun he => ?_⟩
    exfalso
    rw [hid] at he
    omega
  have hG := goAppend_protects tagZero ⟨k, v⟩ H2 l.tags S0 hprot
  have hA := goAppend_view tagZero ⟨k, v⟩ H2 S0 hS0arr hS0len
  have hfull : ¬ S0.len < S0.cap H2 := by
    rw [hcap]
    exact Nat.lt_irrefl _
  have harr := goAppend_arr_of_full tagZero ⟨k, v⟩ H2 S0 hfull
  refine ⟨?_, ?_, ?_, ?_⟩
  · intro he
    rw [harr.1, F3] at he
    omega
  · exact hG.1.trans hviewH2
  · rw [hA, hviewS0]
  · exact hG.2

/-- Core facts about the aliasing `WithTag` of the duplicate variant:
the parent's *observable* tags are unchanged by the derivation, the
child reads back as parent-plus-new-tag, and later appends through the
child still cannot disturb the parent's observable tags (they land at
indices at or beyond the parent's length). -/
theorem withTagAlt_spec (h : Heap Tag) (lb : LoggerAlt.Logger) (k : String) (v : TagVal)
    (hc : lb.tags.arr < h.size) (hd : lb.tags.len ≤ lb.tags.cap h) :
    lb.tags.view (LoggerAlt.WithTag h lb k v).1 = lb.tags.view h ∧
    (LoggerAlt.WithTag h lb k v).2.tags.view (LoggerAlt.WithTag h lb k v).1 = lb.tags.view h ++ [⟨k, v⟩] ∧
    Protects (LoggerAlt.WithTag h lb k v).1 lb.tags (LoggerAlt.WithTag h lb k v).2.tags := by
  have hprot : Protects h lb.tags lb.tags := ⟨hc, fun _ => Nat.le_refl _⟩
  have hG := goAppend_protects tagZero ⟨k, v⟩ h lb.tags lb.tags hprot
  have hA := goAppend_view tagZero ⟨k, v⟩ h lb.tags hc hd
  exact ⟨hG.1, hA, hG.2⟩

/-- The parent's observable tags survive `WithTags` of `logger/logger.go`
whatever the outcome (success or argument error). -/
theorem withTagsM_view (h : Heap Tag) (l : LoggerM.Logger) (args : List TagVal)
    (ha : l.tags.arr < h.size) :
    l.tags.view (LoggerM.WithTags h l args).1 = l.tags.view h := by
  by_cases hodd : args.length % 2 ≠ 0
  · simp [LoggerM.WithTags, hodd]
  · have F3 := freshCopy_size h tagZero l.tags
    simp only [LoggerM.WithTags, hodd, if_neg, not_false_iff, ite_false]
    set H2 := goCopy (h.alloc (List.replicate l.tags.len tagZero)).1
      ⟨(h.alloc (List.replicate l.tags.len tagZero)).2, l.tags.len⟩ l.tags with hH2
    set S0 : Slice := ⟨(h.alloc (List.replicate l.tags.len tagZero)).2, l.tags.len⟩ with hS0
    have hviewH2 : l.tags.view H2 = l.tags.view h := by
      simp only [Slice.view, freshCopy_read_other h tagZero l.tags l.tags.arr ha]
    have hprot : Protects H2 l.tags S0 := by
      refine ⟨by rw [F3]; omega, fun he => ?_⟩
      exfalso
      have hid : S0.arr = h.size := rfl
      rw [hid] at he
      omega
    have hloop := withTagsPairs_protects l.tags args H2 S0 0 hprot
    rcases hres : withTagsPairs H2 S0 0 args with ⟨h3, r⟩
    rw [hres] at hloop
    cases r with
    | ok s => simpa [hres] using hloop.1.trans hviewH2
    | error e => simpa [hres] using hloop.1.trans hviewH2

/-- The parent's observable tags survive `WithTags` of the duplicate
variant whatever the outcome. -/
theorem withTagsAlt_view (h : Heap Tag) (lb : LoggerAlt.Logger) (args : List TagVal)
    (hc : lb.tags.arr < h.size) :
    lb.tags.view (LoggerAlt.WithTags h lb args).1 = lb.tags.view h := by
  by_cases hodd : args.length % 2 ≠ 0
  · simp [LoggerAlt.WithTags, hodd]
  · simp only [LoggerAlt.WithTags, hodd, if_neg, not_false_iff, ite_false]
    have hprot : Protects h lb.tags lb.tags := ⟨hc, fun _ => Nat.le_refl _⟩
    have hloop := withTagsPairs_protects lb.tags args h lb.tags 0 hprot
    rcases hres : withTagsPairs h lb.tags 0 args with ⟨h3, r⟩
    rw [hres] at hloop
    cases r with
    | ok s => simpa [hres] using hloop.1
    | error e => simpa [hres] using hloop.1

/-- C8 (amended): tag derivation via `WithTag`/`WithTags` returns a
logger sharing the parent's back-end reference and level, and the
parent's observable tag sequence (count and contents) is unchanged by
the derivation and by any further appends through the child.  In the
`logger/logger.go` variant the child's tag storage is additionally a
fresh backing array, disjoint from the parent's; in the unnamed
duplicate variant the child may share the parent's backing array (see
the counterexample), but its writes land beyond the parent's length, so
the parent's observable tags are still never disturbed. -/
theorem tag_derivation_isolation (h : Heap Tag) (l : LoggerM.Logger)
    (lb : LoggerAlt.Logger) (k : String) (v : TagVal)
    (ha : l.tags.arr < h.size) (hb : l.tags.len ≤ l.tags.cap h)
    (hc : lb.tags.arr < h.size) (hd : lb.tags.len ≤ lb.tags.cap h) :
    ((LoggerM.WithTag h l k v).2.level = l.level ∧
     (LoggerM.WithTag h l k v).2.implId = l.implId ∧
     (LoggerM.WithTag h l k v).2.tags.arr ≠ l.tags.arr ∧
     l.tags.view (LoggerM.WithTag h l k v).1 = l.tags.view h ∧
     (LoggerM.WithTag h l k v).2.tags.view (LoggerM.WithTag h l k v).1 = l.tags.view h ++ [⟨k, v⟩] ∧
     (∀ ts : List Tag,
       l.tags.view (appendAll tagZero (LoggerM.WithTag h l k v).1 (LoggerM.WithTag h l k v).2.tags ts).1
         = l.tags.view h) ∧
     (∀ args : List TagVal, l.tags.view (LoggerM.WithTags h l args).1 = l.tags.view h)) ∧
    ((LoggerAlt.WithTag h lb k v).2.level = lb.level ∧
     (LoggerAlt.WithTag h lb k v).2.implId = lb.implId ∧
     lb.tags.view (LoggerAlt.WithTag h lb k v).1 = lb.tags.view h ∧
     (LoggerAlt.WithTag h lb k v).2.tags.view (LoggerAlt.WithTag h lb k v).1 = lb.tags.view h ++ [⟨k, v⟩] ∧
     (∀ ts : List Tag,
       lb.tags.view (appendAll tagZero (LoggerAlt.WithTag h lb k v).1 (LoggerAlt.WithTag h lb k v).2.tags ts).1
         = lb.tags.view h) ∧
     (∀ args : List TagVal, lb.tags.view (LoggerAlt.WithTags h lb args).1 = lb.tags.view h)) := by
  obtain ⟨hm1, hm2, hm3, hm4⟩ := withTagM_spec h l k v ha hb
  obtain ⟨hb1, hb2, hb3⟩ := withTagAlt_spec h lb k v hc hd
  refine ⟨⟨rfl, rfl, hm1, hm2, hm3, ?_, fun args => withTagsM_view h l args ha⟩,
          ⟨rfl, rfl, hb1, hb2, ?_, fun args => withTagsAlt_view h lb args hc⟩⟩
  · intro ts
    have := appendAll_protects tagZero ts (LoggerM.WithTag h l k v).1 l.tags
      (LoggerM.WithTag h l k v).2.tags hm4
    exact this.1.trans hm2
  · intro ts
    have := appendAll_protects tagZero ts (LoggerAlt.WithTag h lb k v).1 lb.tags
      (LoggerAlt.WithTag h lb k v).2.tags hb3
    exact this.1.trans hb1

/-- Witness for `tag_derivation_isolation` at a concrete heap and pair
of parent loggers carrying one tag each. -/
theorem tag_derivation_isolation_witness :
    ((⟨0, 1⟩ : Slice).arr < (⟨[[⟨"a", TagVal.str "x"⟩]]⟩ : Heap Tag).size ∧
     (⟨0, 1⟩ : Slice).len ≤ (⟨0, 1⟩ : Slice).cap (⟨[[⟨"a", TagVal.str "x"⟩]]⟩ : Heap Tag)) ∧
    ((LoggerM.WithTag ⟨[[⟨"a", TagVal.str "x"⟩]]⟩ ⟨2, 0, 0, ⟨0, 1⟩⟩ "kk" (TagVal.int 7)).2.tags.arr
        ≠ (⟨0, 1⟩ : Slice).arr ∧
     (⟨0, 1⟩ : Slice).view (LoggerM.WithTag ⟨[[⟨"a", TagVal.str "x"⟩]]⟩ ⟨2, 0, 0, ⟨0, 1⟩⟩ "kk" (TagVal.int 7)).1
        = [⟨"a", TagVal.str "x"⟩] ∧
     (⟨0, 1⟩ : Slice).view (LoggerAlt.WithTag ⟨[[⟨"a", TagVal.str "x"⟩]]⟩ ⟨2, 0, 0, ⟨0, 1⟩⟩ "kk" (TagVal.int 7)).1
        = [⟨"a", TagVal.str "x"⟩]) := by
  have hhyp1 : (⟨0, 1⟩ : Slice).arr < (⟨[[⟨"a", TagVal.str "x"⟩]]⟩ : Heap Tag).size := by decide
  have hhyp2 : (⟨0, 1⟩ : Slice).len ≤ (⟨0, 1⟩ : Slice).cap (⟨[[⟨"a", TagVal.str "x"⟩]]⟩ : Heap Tag) := by decide
  have hmain := tag_derivation_isolation (⟨[[⟨"a", TagVal.str "x"⟩]]⟩ : Heap Tag)
    (⟨2, 0, 0, ⟨0, 1⟩⟩ : LoggerM.Logger) (⟨2, 0, 0, ⟨0, 1⟩⟩ : LoggerAlt.Logger)
    "kk" (TagVal.int 7) hhyp1 hhyp2 hhyp1 hhyp2
  refine ⟨⟨hhyp1, hhyp2⟩, hmain.1.2.2.1, ?_, ?_⟩
  · rw [hmain.1.2.2.2.1]
    rfl
  · rw [hmain.2.2.2.1]
    rfl

/-- C9: `WithTags` (of `logger/logger.go`) returns an error and no
logger whenever the argument sequence has odd length or some
even-indexed key position holds a non-string value, and in every such
error case the parent logger is untouched: the model is a total
function (no panic path exists), the parent record with its level and
back-end reference is immutable, and the parent's observable tag
sequence in the resulting heap is exactly what it was before. -/
theorem withTags_argument_errors (h : Heap Tag) (l : LoggerM.Logger) (args : List TagVal)
    (hv : l.tags.arr < h.size) :
    (args.length % 2 ≠ 0 →
      LoggerM.WithTags h l args = (h, Except.error "odd number of arguments")) ∧
    (∀ j, j < args.length → j % 2 = 0 → isStringArg (args.getD j TagVal.vnil) = false →
      ∃ h2 e, LoggerM.WithTags h l args = (h2, Except.error e) ∧
        l.tags.view h2 = l.tags.view h) := by
  constructor
  · intro hodd
    unfold LoggerM.WithTags
    rw [if_pos hodd]
  · intro j hj hje hbad
    by_cases hodd : args.length % 2 ≠ 0
    · refine ⟨h, "odd number of arguments", ?_, rfl⟩
      unfold LoggerM.WithTags
      rw [if_pos hodd]
    · have heven : args.length % 2 = 0 := by omega
      obtain ⟨h2, e, hloop⟩ := withTagsPairs_err_of_badkey args
        (goCopy (h.alloc (List.replicate l.tags.len tagZero)).1
          ⟨(h.alloc (List.replicate l.tags.len tagZero)).2, l.tags.len⟩ l.tags)
        ⟨(h.alloc (List.replicate l.tags.len tagZero)).2, l.tags.len⟩ 0 j heven hj hje hbad
      have hw : LoggerM.WithTags h l args = (h2, Except.error e) := by
        simp only [LoggerM.WithTags, hodd, if_neg, not_false_iff, ite_false]
        rw [hloop]
      refine ⟨h2, e, hw, ?_⟩
      have hview := withTagsM_view h l args hv
      rw [hw] at hview
      exact hview

/-- Witness for `withTags_argument_errors`: an empty-tagged root logger
and the argument list `[5, "x"]`, whose key position 0 is not a
string. -/
theorem withTags_argument_errors_witness :
    ((⟨0, 0⟩ : Slice).arr < (⟨[[]]⟩ : Heap Tag).size) ∧
    (([TagVal.int 5, TagVal.str "x"].length % 2 ≠ 0 →
      LoggerM.WithTags ⟨[[]]⟩ ⟨2, 0, 0, ⟨0, 0⟩⟩ [TagVal.int 5, TagVal.str "x"]
        = (⟨[[]]⟩, Except.error "odd number of arguments")) ∧
    (∀ j, j < [TagVal.int 5, TagVal.str "x"].length → j % 2 = 0 →
      isStringArg ([TagVal.int 5, TagVal.str "x"].getD j TagVal.vnil) = false →
      ∃ h2 e, LoggerM.WithTags ⟨[[]]⟩ ⟨2, 0, 0, ⟨0, 0⟩⟩ [TagVal.int 5, TagVal.str "x"]
          = (h2, Except.error e) ∧
        (⟨0, 0⟩ : Slice).view h2 = (⟨0, 0⟩ : Slice).view (⟨[[]]⟩ : Heap Tag))) :=
  ⟨by decide, withTags_argument_errors ⟨[[]]⟩ ⟨2, 0, 0, ⟨0, 0⟩⟩
    [TagVal.int 5, TagVal.str "x"] (by decide)⟩

namespace Config

/-! ### The `config` package: reflection-driven flag generation

`processStruct` walks a struct value by reflection and registers one
pflag binding per eligible field.  The embedding represents a reflected
Go value as a tree: `GoVal` mirrors the `reflect.Kind` dispatch of the
source's `switch`, `GoField` carries the Go field name (used in error
messages), the raw struct-tag key/value pairs, and `CanSet`-ness.
`GoFields` is a bespoke list so that the walker can recurse
structurally into nested structs.  Slices and maps carry their static
element/key kinds (and their Go type string, used verbatim in the
source's error messages).  Float payloads are uninterpreted strings: no claim
concerns float arithmetic.  A flag binding is recorded as a `FlagSpec`;
the `*Var`/`*VarP` split in the source only determines whether a
shorthand is registered, which the `short` field captures. -/

inductive GoKind where
  | gString | gInt | gInt8 | gInt16 | gInt32 | gInt64
  | gUint | gUint8 | gUint16 | gUint32 | gUint64
  | gBool | gFloat32 | gFloat64
  | gSlice | gMap | gStruct | gPtr | gInterface | gChan | gFunc
deriving DecidableEq, Repr

/-- `reflect.Kind.String()`. -/
def kindString : GoKind → String
  | GoKind.gString => "string"
  | GoKind.gInt => "int"
  | GoKind.gInt8 => "int8"
  | GoKind.gInt16 => "int16"
  | GoKind.gInt32 => "int32"
  | GoKind.gInt64 => "int64"
  | GoKind.gUint => "uint"
  | GoKind.gUint8 => "uint8"
  | GoKind.gUint16 => "uint16"
  | GoKind.gUint32 => "uint32"
  | GoKind.gUint64 => "uint64"
  | GoKind.gBool => "bool"
  | GoKind.gFloat32 => "float32"
  | GoKind.gFloat64 => "float64"
  | GoKind.gSlice => "slice"
  | GoKind.gMap => "map"
  | GoKind.gStruct => "struct"
  | GoKind.gPtr => "ptr"
  | GoKind.gInterface => "interface"
  | GoKind.gChan => "chan"
  | GoKind.gFunc => "func"

mutual

inductive GoVal : Type where
  | vStr (s : String)
  | vInt (n : Int)
  | vInt8 (n : Int)
  | vInt16 (n : Int)
  | vInt32 (n : Int)
  | vInt64 (typeName : String) (n : Int)
  | vUint (n : Nat)
  | vUint8 (n : Nat)
  | vUint16 (n : Nat)
  | vUint32 (n : Nat)
  | vUint64 (n : Nat)
  | vBool (b : Bool)
  | vFloat32 (x : String)
  | vFloat64 (x : String)
  | vStruct (fields : GoFields)
  | vSlice (typeName : String) (elemKind : GoKind) (elems : List GoVal)
  | vMap (typeName : String) (keyKind valKind : GoKind) (entries : List (GoVal × GoVal))
  | vPtr (pointee : GoVal)
  | vOther (kind : GoKind)

inductive GoFields : Type where
  | nil
  | cons (f : GoField) (rest : GoFields)

inductive GoField : Type where
  | mk (goName : String) (tags : List (String × String)) (canSet : Bool) (value : GoVal)

end

/-- `reflect.Value.Kind()` of a modelled value. -/
def kindOf : GoVal → GoKind
  | GoVal.vStr _ => GoKind.gString
  | GoVal.vInt _ => GoKind.gInt
  | GoVal.vInt8 _ => GoKind.gInt8
  | GoVal.vInt16 _ => GoKind.gInt16
  | GoVal.vInt32 _ => GoKind.gInt32
  | GoVal.vInt64 _ _ => GoKind.gInt64
  | GoVal.vUint _ => GoKind.gUint
  | GoVal.vUint8 _ => GoKind.gUint8
  | GoVal.vUint16 _ => GoKind.gUint16
  | GoVal.vUint32 _ => GoKind.gUint32
  | GoVal.vUint64 _ => GoKind.gUint64
  | GoVal.vBool _ => GoKind.gBool
  | GoVal.vFloat32 _ => GoKind.gFloat32
  | GoVal.vFloat64 _ => GoKind.gFloat64
  | GoVal.vStruct _ => GoKind.gStruct
  | GoVal.vSlice _ _ _ => GoKind.gSlice
  | GoVal.vMap _ _ _ _ => GoKind.gMap
  | GoVal.vPtr _ => GoKind.gPtr
  | GoVal.vOther k => k

/-- `reflect.Value.String()`: the string payload for string values; for
any other kind Go reflection yields the placeholder `<T Value>`.  The
walker only applies it to elements whose static kind is string. -/
def goString : GoVal → String
  | GoVal.vStr s => s
  | v => "<" ++ kindString (kindOf v) ++ " Value>"

/-- `reflect.Value.Int()`: only reachable for int-kind values (Go would
panic otherwise; the static element kind check precedes every use). -/
def goInt : GoVal → Int
  | GoVal.vInt n => n
  | GoVal.vInt8 n => n
  | GoVal.vInt16 n => n
  | GoVal.vInt32 n => n
  | GoVal.vInt64 _ n => n
  | _ => 0

/-- `reflect.StructTag.Get`: empty string when the key is absent. -/
def tagGet (tags : List (String × String)) (key : String) : String :=
  (tags.lookup key).getD ""

/-- The pflag value type a field binds to. -/
inductive FlagType where
  | fString | fInt | fInt8 | fInt16 | fInt32 | fInt64 | fDuration
  | fUint | fUint8 | fUint16 | fUint32 | fUint64
  | fBool | fFloat32 | fFloat64
  | fStringSlice | fIntSlice | fStringToString
deriving DecidableEq, Repr

/-- The default value seeded from the field's current contents. -/
inductive FlagDefault where
  | dStr (s : String)
  | dInt (n : Int)
  | dNat (n : Nat)
  | dBool (b : Bool)
  | dFloat (x : String)
  | dDuration (n : Int)
  | dStrList (xs : List String)
  | dIntList (xs : List Int)
  | dStrMap (kvs : List (String × String))
deriving DecidableEq, Repr, Inhabited

/-- One registered flag binding: dotted full name, optional one-letter
shorthand (empty = none), help text, bound value type, and default. -/
structure FlagSpec where
  fullName : String
  short : String
  description : String
  ftype : FlagType
  dflt : FlagDefault
deriving DecidableEq, Repr

instance : Inhabited FlagSpec := ⟨⟨"", "", "", FlagType.fString, FlagDefault.dStr ""⟩⟩

/-- Dotted-path composition used by the walker:
`fullName := name; if prefix != "" { fullName = prefix + "." + name }`. -/
def composePath (pfx name : String) : String :=
  if pfx ≠ "" then pfx ++ "." ++ name else name

/-- `processStruct(nameTag, fs, v, prefix)`: iterates the struct's
fields in declaration order, skipping unsettable fields, resolving the
name tag (with the per-call fallback of an empty tag key to `"name"`,
which — as in the source — persists for the remaining iterations
because the loop reassigns the parameter), skipping fields whose
resolved name is empty, recursing into nested structs, and otherwise
dispatching on the field's kind to register a flag; unsupported kinds
abort the walk with an error, leaving already-registered flags in
place.  Returns the updated flag list and an optional error message. -/
def processStruct (nameTag : String) (fs : List FlagSpec) :
    GoFields → String → List FlagSpec × Option String
  | GoFields.nil, _ => (fs, none)
  | GoFields.cons (GoField.mk goName tags canSet value) rest, pfx =>
    if canSet = false then processStruct nameTag fs rest pfx
    else
      let nt := if nameTag = "" then "name" else nameTag
      let name := tagGet tags nt
      let short := tagGet tags "short"
      let descr := tagGet tags "description"
      if name = "" then processStruct nt fs rest pfx
      else
        let fullName := composePath pfx name
        match value with
        | GoVal.vStruct subfields =>
          match processStruct nt fs subfields fullName with
          | (fs1, some e) => (fs1, some e)
          | (fs1, none) => processStruct nt fs1 rest pfx
        | GoVal.vStr s =>
          processStruct nt (fs ++ [⟨fullName, short, descr, FlagType.fString, FlagDefault.dStr s⟩]) rest pfx
        | GoVal.vInt n =>
          processStruct nt (fs ++ [⟨fullName, short, descr, FlagType.fInt, FlagDefault.dInt n⟩]) rest pfx
        | GoVal.vInt8 n =>
          processStruct nt (fs ++ [⟨fullName, short, descr, FlagType.fInt8, FlagDefault.dInt n⟩]) rest pfx
        | GoVal.vInt16 n =>
          processStruct nt (fs ++ [⟨fullName, short, descr, FlagType.fInt16, FlagDefault.dInt n⟩]) rest pfx
        | GoVal.vInt32 n =>
          processStruct nt (fs ++ [⟨fullName, short, descr, FlagType.fInt32, FlagDefault.dInt n⟩]) rest pfx
        | GoVal.vInt64 tn n =>
          if tn = "time.Duration" then
            processStruct nt (fs ++ [⟨fullName, short, descr, FlagType.fDuration, FlagDefault.dDuration n⟩]) rest pfx
          else
            processStruct nt (fs ++ [⟨fullName, short, descr, FlagType.fInt64, FlagDefault.dInt n⟩]) rest pfx
        | GoVal.vUint n =>
          processStruct nt (fs ++ [⟨fullName, short, descr, FlagType.fUint, FlagDefault.dNat n⟩]) rest pfx
        | GoVal.vUint8 n =>
          processStruct nt (fs ++ [⟨fullName, short, descr, FlagType.fUint8, FlagDefault.dNat n⟩]) rest pfx
        | GoVal.vUint16 n =>
          processStruct nt (fs ++ [⟨fullName, short, descr, FlagType.fUint16, FlagDefault.dNat n⟩]) rest pfx
        | GoVal.vUint32 n =>
          processStruct nt (fs ++ [⟨fullName, short, descr, FlagType.fUint32, FlagDefault.dNat n⟩]) rest pfx
        | GoVal.vUint64 n =>
          processStruct nt (fs ++ [⟨fullName, short, descr, FlagType.fUint64, FlagDefault.dNat n⟩]) rest pfx
        | GoVal.vBool b =>
          processStruct nt (fs ++ [⟨fullName, short, descr, FlagType.fBool, FlagDefault.dBool b⟩]) rest pfx
        | GoVal.vFloat32 x =>
          processStruct nt (fs ++ [⟨fullName, short, descr, FlagType.fFloat32, FlagDefault.dFloat x⟩]) rest pfx
        | GoVal.vFloat64 x =>
          processStruct nt (fs ++ [⟨fullName, short, descr, FlagType.fFloat64, FlagDefault.dFloat x⟩]) rest pfx
        | GoVal.vSlice tn ek elems =>
          match ek with
          | GoKind.gString =>
            processStruct nt (fs ++ [⟨fullName, short, descr, FlagType.fStringSlice,
              FlagDefault.dStrList (elems.map goString)⟩]) rest pfx
          | GoKind.gInt =>
            processStruct nt (fs ++ [⟨fullName, short, descr, FlagType.fIntSlice,
              FlagDefault.dIntList (elems.map goInt)⟩]) rest pfx
          | _ => (fs, some ("unsupported slice type " ++ tn ++ " for field " ++ goName))
        | GoVal.vMap tn kk vk entries =>
          if kk = GoKind.gString ∧ vk = GoKind.gString then
            processStruct nt (fs ++ [⟨fullName, short, descr, FlagType.fStringToString,
              FlagDefault.dStrMap (entries.map (fun kv => (goString kv.1, goString kv.2)))⟩]) rest pfx
          else (fs, some ("unsupported map type " ++ tn ++ " for field " ++ goName))
        | GoVal.vPtr _ =>
          (fs, some ("unsupported field type ptr for field " ++ goName))
        | GoVal.vOther k =>
          (fs, some ("unsupported field type " ++ kindString k ++ " for field " ++ goName))

/-- The distinguished `config` flag registered by `New` before the
walker runs. -/
def configFlag : FlagSpec :=
  ⟨"config", "c", "location of the configuration file (default: ./config.yml)",
    FlagType.fString, FlagDefault.dStr "./config.yml"⟩

/-- `Manager`: the live flag registry, the target value, and the bound
configuration-file path. -/
structure Manager where
  target : GoVal
  flags : List FlagSpec
  configFile : String

/-- `genFlagSet`: re-checks that the target is a pointer, dereferences,
requires a struct pointee, then walks it with an empty prefix.  Flags
registered before a failure stay registered (no rollback). -/
def genFlagSet (target : GoVal) (nameTag : String) (fs : List FlagSpec) :
    List FlagSpec × Option String :=
  match target with
  | GoVal.vPtr p =>
    match p with
    | GoVal.vStruct fields => processStruct nameTag fs fields ""
    | _ => (fs, some ("expected struct, got " ++ kindString (kindOf p)))
  | v => (fs, some ("expected pointer to struct, got " ++ kindString (kindOf v)))

/-- Outcome of `New`: a panic (`out` was not a pointer), or the manager
together with the error, if any, that `genFlagSet` reported. -/
inductive NewResult where
  | panicked (msg : String)
  | returned (m : Manager) (err : Option String)

/-- `New(out, nameTagOverride)`: panics when `out` is not a pointer;
otherwise registers the `config`/`c` flag with default `./config.yml`
and invokes `genFlagSet`, returning the manager together with any
generation error. -/
def New (out : GoVal) (nameTagOverride : String) : NewResult :=
  match out with
  | GoVal.vPtr _ =>
    let r := genFlagSet out nameTagOverride [configFlag]
    NewResult.returned ⟨out, r.1, "./config.yml"⟩ r.2
  | _ => NewResult.panicked "out is not a pointer"

/-! ### Claim theorems: flag generation -/

/-- A struct with one field `Nested` that carries no `name` tag but is
itself a struct whose sub-field `Sub` is tagged `name:"sub"`. -/
def unnamedNestedExample : GoFields :=
  GoFields.cons
    (GoField.mk "Nested" [] true
      (GoVal.vStruct
        (GoFields.cons (GoField.mk "Sub" [("name", "sub")] true (GoVal.vStr "")) GoFields.nil)))
    GoFields.nil

/-- C2 counterexample: the walker checks the name tag *before* the
nested-struct test (`if name == "" { continue }` precedes the
`reflect.Struct` case), so a nested struct field lacking a name tag is
skipped entirely — traversal does **not** descend, and the tagged
sub-field `sub` produces no flag, contradicting the claim that
descent still happens. -/
theorem unnamed_nested_struct_counterexample :
    (processStruct "name" [] unnamedNestedExample "").1 = [] ∧
    (processStruct "name" [] unnamedNestedExample "").2 = none :=
  ⟨rfl, rfl⟩

set_option maxHeartbeats 2000000 in
/-- C2 (amended): a settable field whose resolved name tag is empty is
skipped entirely without error, *whatever its type* — including nested
structs, into which the walker does not descend; processing continues
with the remaining fields (under the name-tag key with the empty-key
fallback applied, which the loop persists). -/
theorem unnamed_field_skipped_entirely (nameTag : String) (fs : List FlagSpec)
    (pfx goName : String) (tags : List (String × String)) (value : GoVal)
    (rest : GoFields)
    (hname : tagGet tags (if nameTag = "" then "name" else nameTag) = "") :
    processStruct nameTag fs (GoFields.cons (GoField.mk goName tags true value) rest) pfx
      = processStruct (if nameTag = "" then "name" else nameTag) fs rest pfx := by
  simp only [processStruct, hname]
  simp

/-- Witness for `unnamed_field_skipped_entirely` at the concrete
unnamed-nested-struct example. -/
theorem unnamed_field_skipped_entirely_witness :
    tagGet [] (if "name" = "" then "name" else "name") = "" ∧
    processStruct "name" [] unnamedNestedExample ""
      = processStruct (if "name" = "" then "name" else "name") [] GoFields.nil "" :=
  ⟨by decide, unnamed_field_skipped_entirely "name" [] "" "Nested" []
    (GoVal.vStruct
      (GoFields.cons (GoField.mk "Sub" [("name", "sub")] true (GoVal.vStr "")) GoFields.nil))
    GoFields.nil (by decide)⟩

/-- A struct with one field of type `map[string][]string`, tagged
`name:"headers"`, as in the repository's own tests. -/
def headersExample : GoFields :=
  GoFields.cons
    (GoField.mk "Headers" [("name", "headers"), ("description", "HTTP headers")] true
      (GoVal.vMap "map[string][]string" GoKind.gString GoKind.gSlice []))
    GoFields.nil

/-- C3: evaluating the walker at the `map[string][]string` field.  The
`reflect.Map` case accepts only string values (`Elem().Kind() ==
reflect.String`), and a `[]string` element has kind slice, so the walk
aborts with "unsupported map type" — whereas the claim, the spec, and
the repository's own test (`TestProcessStructStringToStringSliceMap`,
which requires `err == nil` and no flag) all say this must be an
accepted no-op.  The code contradicts its own tests: code bug. -/
theorem stringToStringSliceMap_errors :
    processStruct "name" [] headersExample ""
      = ([], some "unsupported map type map[string][]string for field Headers") :=
  rfl

/-- C4: `New` panics whenever the supplied target is not a pointer, and
for a pointer whose pointee is not a struct it returns the manager
(with only the `config` flag registered) together with a recoverable
"expected struct" error instead of crashing. -/
theorem New_pointer_contract :
    (∀ (out : GoVal) (nt : String), kindOf out ≠ GoKind.gPtr →
      New out nt = NewResult.panicked "out is not a pointer") ∧
    (∀ (p : GoVal) (nt : String), kindOf p ≠ GoKind.gStruct →
      New (GoVal.vPtr p) nt
        = NewResult.returned ⟨GoVal.vPtr p, [configFlag], "./config.yml"⟩
            (some ("expected struct, got " ++ kindString (kindOf p)))) := by
  constructor
  · intro out nt hk
    cases out <;> first | rfl | exact absurd rfl hk
  · intro p nt hk
    cases p <;> first | rfl | exact absurd rfl hk

/-- Witness for `New_pointer_contract`: a plain string target panics; a
pointer to an int yields the recoverable error. -/
theorem New_pointer_contract_witness :
    (kindOf (GoVal.vStr "x") ≠ GoKind.gPtr ∧
      New (GoVal.vStr "x") "" = NewResult.panicked "out is not a pointer") ∧
    (kindOf (GoVal.vInt 3) ≠ GoKind.gStruct ∧
      New (GoVal.vPtr (GoVal.vInt 3)) ""
        = NewResult.returned ⟨GoVal.vPtr (GoVal.vInt 3), [configFlag], "./config.yml"⟩
            (some ("expected struct, got " ++ kindString (kindOf (GoVal.vInt 3))))) :=
  ⟨⟨by decide, New_pointer_contract.1 (GoVal.vStr "x") "" (by decide)⟩,
   ⟨by decide, New_pointer_contract.2 (GoVal.vInt 3) "" (by decide)⟩⟩

/-- The `server`/`port` nesting example. -/
def serverPortExample : GoFields :=
  GoFields.cons
    (GoField.mk "Server" [("name", "server")] true
      (GoVal.vStruct
        (GoFields.cons (GoField.mk "Port" [("name", "port")] true (GoVal.vInt 8080)) GoFields.nil)))
    GoFields.nil

/-- The three-level `level2`/`level3`/`value` nesting example. -/
def threeLevelExample : GoFields :=
  GoFields.cons
    (GoField.mk "Level2" [("name", "level2")] true
      (GoVal.vStruct
        (GoFields.cons
          (GoField.mk "Level3" [("name", "level3")] true
            (GoVal.vStruct
              (GoFields.cons (GoField.mk "Value" [("name", "value")] true (GoVal.vStr "")) GoFields.nil)))
          GoFields.nil)))
    GoFields.nil

set_option maxHeartbeats 4000000 in
/-- C5: every eligible field's flag is named by `composePath`:
`parentPath + "." + localName` when the accumulated prefix is
non-empty, else `localName` alone; in particular `server`/`port` yields
`server.port` and the three-level nesting yields
`level2.level3.value`. -/
theorem dotted_path_composition :
    (∀ (pfx nm sh de goName s : String) (fs : List FlagSpec), nm ≠ "" →
      processStruct "name" fs
        (GoFields.cons
          (GoField.mk goName [("name", nm), ("short", sh), ("description", de)] true (GoVal.vStr s))
          GoFields.nil) pfx
        = (fs ++ [⟨composePath pfx nm, sh, de, FlagType.fString, FlagDefault.dStr s⟩], none)) ∧
    (∀ pfx nm : String, pfx ≠ "" → composePath pfx nm = pfx ++ "." ++ nm) ∧
    (∀ nm : String, composePath "" nm = nm) ∧
    ((processStruct "name" [] serverPortExample "").1.map (fun f => f.fullName) = ["server.port"] ∧
      (processStruct "name" [] serverPortExample "").2 = none) ∧
    ((processStruct "name" [] threeLevelExample "").1.map (fun f => f.fullName) = ["level2.level3.value"] ∧
      (processStruct "name" [] threeLevelExample "").2 = none) := by
  refine ⟨?_, ?_, ?_, ⟨rfl, rfl⟩, ⟨rfl, rfl⟩⟩
  · intro pfx nm sh de goName s fs hnm
    simp only [processStruct, tagGet]
    simp [hnm]
    exact ⟨rfl, rfl⟩
  · intro pfx nm hp
    simp [composePath, hp]
  · intro nm
    simp [composePath]

/-- Witness for `dotted_path_composition` at `pfx = "server"`,
`nm = "port"`. -/
theorem dotted_path_composition_witness :
    ("port" ≠ "" ∧
      processStruct "name" []
        (GoFields.cons
          (GoField.mk "Port" [("name", "port"), ("short", "p"), ("description", "d")] true (GoVal.vStr ""))
          GoFields.nil) "server"
        = ([⟨composePath "server" "port", "p", "d", FlagType.fString, FlagDefault.dStr ""⟩], none)) ∧
    ("server" ≠ "" ∧ composePath "server" "port" = "server" ++ "." ++ "port") :=
  ⟨⟨by decide, dotted_path_composition.1 "server" "port" "p" "d" "Port" "" [] (by decide)⟩,
   ⟨by decide, dotted_path_composition.2.1 "server" "port" (by decide)⟩⟩

/-! ### `ParseConfiguration`: merge of file values and explicit flags

`ParseConfiguration` operates on the command's flag set through the
pflag interface only (`Visit`, `Set`) plus `yaml.Unmarshal` into the
target struct.  Because every generated flag is bound directly to its
struct field's storage (the `*Var` binding), a field's current value
and its flag's `Value.String()` are one location; the registry is
therefore modelled as a list of flags carrying name, current value
(string-serialized, as pflag's `Value.String()` produces and `Set`
consumes), registered default, and pflag's `Changed` bit.  The YAML
document is the list of (dotted field path, value) pairs it addresses;
decoding overwrites exactly the addressed fields and does not touch
`Changed` (it writes through the struct pointer, not through pflag).
`Visit` enumerates only `Changed` flags and the snapshot is consumed as
a Go map, i.e. only by key lookup, so its iteration order is
immaterial; re-applying a snapshot entry goes through `Set`, which
writes the bound field and marks the flag `Changed`.  Re-parsing a
value just serialized by the same flag type succeeds, so `Set` is
modelled as total (the "could not set flag" wrap is unreachable in this
string model and no claim concerns it). -/

/-- One pflag entry bound to a struct field. -/
structure GoFlag where
  name : String
  value : String
  dflt : String
  changed : Bool
deriving DecidableEq, Repr

instance : Inhabited GoFlag := ⟨⟨"", "", "", false⟩⟩

abbrev Registry : Type := List GoFlag

/-- Step 1 of `ParseConfiguration`: `cmd.Flags().Visit` over the
explicitly-set flags, recording name and serialized value, skipping the
distinguished `config` flag. -/
def snapshotSetFlags (reg : Registry) : List (String × String) :=
  (List.filter (fun f => f.changed && !(f.name == "config")) reg).map (fun f => (f.name, f.value))

/-- Step 3: `yaml.Unmarshal(raw, m.target)` overwrites every field the
document addresses, leaving the pflag `Changed` bits alone. -/
def unmarshalInto (reg : Registry) (doc : List (String × String)) : Registry :=
  List.map (fun f =>
    match doc.lookup f.name with
    | some v => { f with value := v }
    | none => f) reg

/-- Step 4: re-apply the snapshot through `cmd.Flags().Set`, which
writes the bound field and marks the flag changed. -/
def applyOverrides (reg : Registry) (snap : List (String × String)) : Registry :=
  List.map (fun f =>
    match snap.lookup f.name with
    | some v => { f with value := v, changed := true }
    | none => f) reg

/-- Outcome of `os.ReadFile(m.configFile)` followed by YAML parsing:
either the read fails with an I/O error message, or it yields a
document that is malformed or a list of addressed fields. -/
inductive FileRead where
  | failure (ioErr : String)
  | malformed (parseErr : String)
  | doc (entries : List (String × String))

/-- `ParseConfiguration(cmd)`: snapshot the explicitly-set flags, read
the file (failing with "could not read config file" wrapped around the
I/O error), decode it over the target (failing with "could not parse
config file"), then re-apply the snapshot.  Returns the resulting
registry state (= the mutated target struct, via the bindings) and an
optional error; on the read-failure path nothing has been written. -/
def ParseConfiguration (file : FileRead) (reg : Registry) : Registry × Option String :=
  let snap := snapshotSetFlags reg
  match file with
  | FileRead.failure e => (reg, some ("could not read config file: " ++ e))
  | FileRead.malformed e => (reg, some ("could not parse config file: " ++ e))
  | FileRead.doc entries => (applyOverrides (unmarshalInto reg entries) snap, none)

/-! ### Lemmas about the explicit-flag snapshot -/

theorem lookup_snapshot_none (reg : List GoFlag) (nm : String)
    (hnm : ∀ f ∈ reg, f.name ≠ nm) :
    (snapshotSetFlags reg).lookup nm = none := by
  induction reg with
  | nil => rfl
  | cons g tl ih =>
    have hg : g.name ≠ nm := hnm g (by simp)
    have htl : ∀ f ∈ tl, f.name ≠ nm := fun f hf => hnm f (by simp [hf])
    unfold snapshotSetFlags
    rw [List.filter_cons]
    by_cases hp : (g.changed && !(g.name == "config")) = true
    · rw [if_pos hp, List.map_cons, List.lookup_cons]
      simp only [beq_eq_false_iff_ne.mpr (Ne.symm hg)]
      exact ih htl
    · rw [if_neg hp]
      exact ih htl

theorem lookup_snapshot_mem (reg : List GoFlag) (hnd : (reg.map GoFlag.name).Nodup)
    (f : GoFlag) (hf : f ∈ reg) :
    (snapshotSetFlags reg).lookup f.name
      = if f.changed = true ∧ f.name ≠ "config" then some f.value else none := by
  induction reg with
  | nil => cases hf
  | cons g tl ih =>
    rw [List.map_cons, List.nodup_cons] at hnd
    rcases List.mem_cons.mp hf with rfl | hftl
    · by_cases hp : (f.changed && !(f.name == "config")) = true
      · have hcond : f.changed = true ∧ f.name ≠ "config" := by
          have hp2 := hp
          simp only [Bool.and_eq_true, Bool.not_eq_true', beq_eq_false_iff_ne] at hp2
          exact hp2
        simp only [snapshotSetFlags, List.filter_cons]
        rw [if_pos hp, List.map_cons, List.lookup_cons]
        simp [hcond]
      · have hcond : ¬ (f.changed = true ∧ f.name ≠ "config") := by
          intro hc
          apply hp
          simp only [Bool.and_eq_true, Bool.not_eq_true', beq_eq_false_iff_ne]
          exact hc
        have hnone : (snapshotSetFlags tl).lookup f.name = none := by
          refine lookup_snapshot_none tl f.name (fun x hx hxe => ?_)
          exact hnd.1 (hxe ▸ List.mem_map_of_mem GoFlag.name hx)
        simp only [snapshotSetFlags, List.filter_cons]
        rw [if_neg hp, if_neg hcond]
        simpa [snapshotSetFlags] using hnone
    · have hne : g.name ≠ f.name := by
        intro he
        exact hnd.1 (he ▸ List.mem_map_of_mem GoFlag.name hftl)
      have ihv := ih hnd.2 hftl
      unfold snapshotSetFlags
      rw [List.filter_cons]
      by_cases hp : (g.changed && !(g.name == "config")) = true
      · rw [if_pos hp, List.map_cons, List.lookup_cons]
        simp only [beq_eq_false_iff_ne.mpr (Ne.symm hne)]
        exact ihv
      · rw [if_neg hp]
        exact ihv

theorem forallTwo_map_self {α β : Type} (R : α → β → Prop) (g : α → β) (l : List α)
    (h : ∀ a ∈ l, R a (g a)) : List.Forall₂ R l (l.map g) := by
  induction l with
  | nil => exact List.Forall₂.nil
  | cons a t ih =>
    exact List.Forall₂.cons (h a (by simp)) (ih (fun x hx => h x (by simp [hx])))

/-! ### Claim theorems: configuration merge -/

/-- C1: after a successful `ParseConfiguration`, every flag the user
explicitly set on the command line (other than the excluded `config`
flag) holds its command-line value in the bound struct field; every
field addressed by the file but not explicitly set holds the file's
value; every field absent from both keeps its flag-registry default.
The hypotheses are the real-world invariants of the pre-state: flag
names are unique (pflag enforces this), the decoded document does not
address the `config` flag (it is bound to the manager's own
`configFile` field, not to the target struct), and flags the user did
not set still hold their registered default after command-line
parsing. -/
theorem ParseConfiguration_precedence (reg : List GoFlag) (entries : List (String × String))
    (hnd : (reg.map GoFlag.name).Nodup)
    (hconf : entries.lookup "config" = none)
    (hdef : ∀ f ∈ reg, f.changed = false → f.value = f.dflt) :
    ∃ reg2 : List GoFlag,
      ParseConfiguration (FileRead.doc entries) reg = (reg2, none) ∧
      List.Forall₂ (fun f f2 =>
        f2.name = f.name ∧
        (f.changed = true → f.name ≠ "config" → f2.value = f.value) ∧
        (f.changed = false → ∀ v, entries.lookup f.name = some v → f2.value = v) ∧
        (f.changed = false → entries.lookup f.name = none → f2.value = f.dflt)) reg reg2 := by
  refine ⟨applyOverrides (unmarshalInto reg entries) (snapshotSetFlags reg), rfl, ?_⟩
  have hcomp : applyOverrides (unmarshalInto reg entries) (snapshotSetFlags reg)
      = reg.map (fun f =>
          (fun x : GoFlag =>
            match (snapshotSetFlags reg).lookup x.name with
            | some v => { x with value := v, changed := true }
            | none => x)
          ((fun x : GoFlag =>
            match entries.lookup x.name with
            | some v => { x with value := v }
            | none => x) f)) := by
    simp only [applyOverrides, unmarshalInto, List.map_map]
    rfl
  rw [hcomp]
  apply forallTwo_map_self
  intro f hf
  have hsnap := lookup_snapshot_mem reg hnd f hf
  by_cases hch : f.changed = true
  · by_cases hcf : f.name = "config"
    · have hz : (snapshotSetFlags reg).lookup f.name = none := by
        rw [hsnap, if_neg]
        intro hc
        exact hc.2 hcf
      have hz2 : List.lookup "config" (snapshotSetFlags reg) = none := by
        rw [← hcf]
        exact hz
      simp [hch, hcf, hz2, hconf]
    · have hz : (snapshotSetFlags reg).lookup f.name = some f.value := by
        rw [hsnap, if_pos ⟨hch, hcf⟩]
      cases he : entries.lookup f.name with
      | some v => simp [he, hz, hch, hcf]
      | none => simp [he, hz, hch, hcf]
  · have hchf : f.changed = false := by
      cases hb : f.changed
      · rfl
      · exact absurd hb hch
    have hz : (snapshotSetFlags reg).lookup f.name = none := by
      rw [hsnap, if_neg]
      intro hc
      exact hch hc.1
    cases he : entries.lookup f.name with
    | some v => simp [he, hz, hchf]
    | none => simp [he, hz, hchf, hdef f hf hchf]


/-- Concrete registry for the precedence witness: the `config` flag,
one explicitly-set flag, one defaulted flag the file addresses, and one
defaulted flag the file does not address. -/
def regEx : List GoFlag :=
  [⟨"config", "./config.yml", "./config.yml", false⟩,
   ⟨"name", "from-flag", "default-name", true⟩,
   ⟨"port", "3000", "3000", false⟩,
   ⟨"host", "localhost", "localhost", false⟩]

/-- Concrete document for the precedence witness. -/
def entriesEx : List (String × String) := [("name", "from-config"), ("port", "8080")]

/-- Witness for `ParseConfiguration_precedence` at `regEx`/`entriesEx`:
`--name from-flag` beats the file's `from-config`, `port` takes the
file's `8080`, `host` keeps its default. -/
theorem ParseConfiguration_precedence_witness :
    ((regEx.map GoFlag.name).Nodup ∧ entriesEx.lookup "config" = none ∧
      (∀ f ∈ regEx, f.changed = false → f.value = f.dflt)) ∧
    (∃ reg2 : List GoFlag,
      ParseConfiguration (FileRead.doc entriesEx) regEx = (reg2, none) ∧
      List.Forall₂ (fun f f2 =>
        f2.name = f.name ∧
        (f.changed = true → f.name ≠ "config" → f2.value = f.value) ∧
        (f.changed = false → ∀ v, entriesEx.lookup f.name = some v → f2.value = v) ∧
        (f.changed = false → entriesEx.lookup f.name = none → f2.value = f.dflt)) regEx reg2) :=
  ⟨⟨by decide, by decide, by decide⟩,
   ParseConfiguration_precedence regEx entriesEx (by decide) (by decide) (by decide)⟩

/-- C10: when reading the configuration file fails, `ParseConfiguration`
returns the I/O failure wrapped as "could not read config file" and the
registry — and with it every bound struct field — is exactly the input
state: the failure happens before `yaml.Unmarshal` and before any
`Set`, so nothing has been written. -/
theorem ParseConfiguration_read_error (reg : List GoFlag) (e : String) :
    ParseConfiguration (FileRead.failure e) reg
      = (reg, some ("could not read config file: " ++ e)) :=
  rfl

end Config

end Gohelpers

